import Mathlib

/-!
Formal model of the Sudoku engine in `sudoku.py`.

The 9×9 board is a total function `Fin 9 → Fin 9 → Nat` (cell value, `0` =
empty).  In-place mutation of the Python lists is modelled by functional
update; the randomness consumed by `random.shuffle` and `random.randint`
is modelled by explicit streams (`Nat → List Nat` of shuffled digit lists,
`Nat → Fin 9 × Fin 9` of coordinate draws) threaded through the functions
by an index.
-/

namespace Sudoku

/-- A 9×9 Sudoku board: `b r c` is the value at row `r`, column `c`; `0` is empty. -/
abbrev Board := Fin 9 → Fin 9 → Nat

/-- A (row, column) coordinate. -/
abbrev Coord := Fin 9 × Fin 9

/-- Functional model of the in-place assignment `board[r][c] = v`. -/
def update (b : Board) (r c : Fin 9) (v : Nat) : Board :=
  fun r' c' => if r' = r ∧ c' = c then v else b r' c'

/-- `deep_copy_board`: `[row[:] for row in board]`; with immutable functional
boards a copy is the board itself. -/
def deep_copy_board (b : Board) : Board := b

/-- The all-empty board `[[0] * 9 for _ in range(9)]`. -/
def emptyBoard : Board := fun _ _ => 0

/-- `SudokuGenerator._find_empty`: the first empty cell in row-major order,
or `none` when the board is full. -/
def find_empty (b : Board) : Option Coord :=
  (List.finRange 9).findSome? fun r =>
    (List.finRange 9).findSome? fun c =>
      if b r c = 0 then some (r, c) else none

/-- Row index of cell `i` of the 3×3 box containing index `x`
(`start = (x // box) * box`, cells `start .. start + 2`). -/
def boxCell (x : Fin 9) (i : Fin 3) : Fin 9 :=
  ⟨x.val / 3 * 3 + i.val, by omega⟩

/-- `SudokuGenerator._is_valid`: `num` appears neither in row `row`, nor in
column `col`, nor in the 3×3 box containing `(row, col)`. -/
def is_valid (b : Board) (row col : Fin 9) (num : Nat) : Bool :=
  !((List.finRange 9).any fun c => b row c == num) &&
  !((List.finRange 9).any fun r => b r col == num) &&
  !((List.finRange 3).any fun i =>
     (List.finRange 3).any fun j => b (boxCell row i) (boxCell col j) == num)

/-- Number of empty cells of a board (the measure that shrinks at each
recursive call of the solver). -/
def emptyCount (b : Board) : Nat :=
  (Finset.univ.filter fun rc : Coord => b rc.1 rc.2 = 0).card

-- ------------------------- basic lemmas ---------------------------------- --

theorem update_same (b : Board) (r c : Fin 9) (v : Nat) :
    update b r c v r c = v := by
  simp [update]

theorem update_other (b : Board) (r c : Fin 9) (v : Nat) (r' c' : Fin 9)
    (h : ¬(r' = r ∧ c' = c)) : update b r c v r' c' = b r' c' := by
  simp [update, h]

theorem update_update (b : Board) (r c : Fin 9) (v w : Nat) :
    update (update b r c v) r c w = update b r c w := by
  funext r' c'
  by_cases h : r' = r ∧ c' = c <;> simp [update, h]

theorem update_self (b : Board) (r c : Fin 9) (v : Nat) (h : b r c = v) :
    update b r c v = b := by
  funext r' c'
  by_cases hc : r' = r ∧ c' = c
  · obtain ⟨h1, h2⟩ := hc
    subst h1; subst h2
    simp [update, h]
  · simp [update, hc]

theorem find_empty_eq_none (b : Board) :
    find_empty b = none ↔ ∀ r c, b r c ≠ 0 := by
  constructor
  · intro h r c hz
    rw [find_empty, List.findSome?_eq_none_iff] at h
    have hr := h r (List.mem_finRange r)
    rw [List.findSome?_eq_none_iff] at hr
    have hc := hr c (List.mem_finRange c)
    simp [hz] at hc
  · intro h
    rw [find_empty, List.findSome?_eq_none_iff]
    intro r _
    rw [List.findSome?_eq_none_iff]
    intro c _
    simp [h r c]

theorem find_empty_spec (b : Board) (r c : Fin 9)
    (h : find_empty b = some (r, c)) : b r c = 0 := by
  rw [find_empty] at h
  obtain ⟨rr, hrr, hsome⟩ := List.exists_of_findSome?_eq_some h
  obtain ⟨cc, hcc, hsome2⟩ := List.exists_of_findSome?_eq_some hsome
  by_cases hz : b rr cc = 0
  · rw [if_pos hz] at hsome2
    have : rr = r ∧ cc = c := by
      have := Option.some.inj hsome2
      exact ⟨congrArg Prod.fst this, congrArg Prod.snd this⟩
    obtain ⟨h1, h2⟩ := this
    subst h1; subst h2
    exact hz
  · simp [hz] at hsome2

theorem emptyCount_update_lt (b : Board) (r c : Fin 9) (n : Nat)
    (hz : b r c = 0) (hn : n ≠ 0) :
    emptyCount (update b r c n) < emptyCount b := by
  apply Finset.card_lt_card
  constructor
  · intro rc hrc
    simp only [Finset.mem_filter, Finset.mem_univ, true_and] at hrc ⊢
    by_cases h : rc.1 = r ∧ rc.2 = c
    · rw [update, if_pos h] at hrc
      exact absurd hrc hn
    · rwa [update, if_neg h] at hrc
  · intro hsub
    have hmem : (⟨r, c⟩ : Coord) ∈ Finset.univ.filter fun rc : Coord => b rc.1 rc.2 = 0 := by
      simp [hz]
    have := hsub hmem
    simp only [Finset.mem_filter, Finset.mem_univ, true_and] at this
    rw [update] at this
    simp at this
    exact hn this

theorem emptyCount_le (b : Board) : emptyCount b ≤ 81 := by
  calc emptyCount b ≤ (Finset.univ : Finset Coord).card := Finset.card_filter_le _ _
  _ = 81 := by
      rw [show (Finset.univ : Finset Coord).card = Fintype.card Coord from rfl]
      rw [show Fintype.card Coord = Fintype.card (Fin 9 × Fin 9) from rfl]
      simp

-- ------------------------- conflict detector ----------------------------- --

/-- The `seen_row` dict entry for value `v` in row `idx`: the columns of row
`idx` holding `v`. -/
def rowGroup (b : Board) (idx : Fin 9) (v : Nat) : Finset (Fin 9) :=
  Finset.univ.filter fun j => b idx j = v

/-- The `seen_col` dict entry for value `v` in column `idx`. -/
def colGroup (b : Board) (idx : Fin 9) (v : Nat) : Finset (Fin 9) :=
  Finset.univ.filter fun j => b j idx = v

/-- The `seen_box` dict entry for value `v` in the box with corner
`(3*br, 3*bc)`: the cells of that box holding `v`. -/
def boxGroup (b : Board) (br bc : Fin 3) (v : Nat) : Finset Coord :=
  Finset.univ.filter fun rc : Coord =>
    rc.1.val / 3 = br.val ∧ rc.2.val / 3 = bc.val ∧ b rc.1 rc.2 = v

/-- Row phase of `find_conflicts`: cell `(idx, col)` is collected iff its
value is non-zero and that value's group in row `idx` has more than one
member (`len(cols) > 1`). -/
def rowConflicts (b : Board) (idx : Fin 9) : Finset Coord :=
  Finset.univ.filter fun rc : Coord =>
    rc.1 = idx ∧ b rc.1 rc.2 ≠ 0 ∧ 1 < (rowGroup b idx (b rc.1 rc.2)).card

/-- Column phase of `find_conflicts`. -/
def colConflicts (b : Board) (idx : Fin 9) : Finset Coord :=
  Finset.univ.filter fun rc : Coord =>
    rc.2 = idx ∧ b rc.1 rc.2 ≠ 0 ∧ 1 < (colGroup b idx (b rc.1 rc.2)).card

/-- Box phase of `find_conflicts` (`conflicts.update(coords)` when
`len(coords) > 1`). -/
def boxConflicts (b : Board) (br bc : Fin 3) : Finset Coord :=
  Finset.univ.filter fun rc : Coord =>
    rc.1.val / 3 = br.val ∧ rc.2.val / 3 = bc.val ∧ b rc.1 rc.2 ≠ 0 ∧
      1 < (boxGroup b br bc (b rc.1 rc.2)).card

/-- `find_conflicts(board)`: coordinates that violate Sudoku rules — the
union of the row, column, and box conflict sets. -/
def find_conflicts (b : Board) : Finset Coord :=
  ((Finset.univ : Finset (Fin 9)).biUnion fun idx => rowConflicts b idx) ∪
  ((Finset.univ : Finset (Fin 9)).biUnion fun idx => colConflicts b idx) ∪
  ((Finset.univ : Finset (Fin 3 × Fin 3)).biUnion fun bb => boxConflicts b bb.1 bb.2)

/-- Two coordinates lie in a common row, column or 3×3 box. -/
def sameUnit (rc rd : Coord) : Prop :=
  rc.1 = rd.1 ∨ rc.2 = rd.2 ∨
    (rc.1.val / 3 = rd.1.val / 3 ∧ rc.2.val / 3 = rd.2.val / 3)

instance (rc rd : Coord) : Decidable (sameUnit rc rd) := by
  unfold sameUnit
  infer_instance

/-- The conflict set as the specification words it: a coordinate is in
conflict iff it is non-zero and some other coordinate of the same row,
column or box holds the same value (its value's group in that unit has more
than one member). -/
def specConflicts (b : Board) : Finset Coord :=
  Finset.univ.filter fun rc : Coord =>
    b rc.1 rc.2 ≠ 0 ∧ ∃ rd : Coord, rd ≠ rc ∧ sameUnit rc rd ∧ b rd.1 rd.2 = b rc.1 rc.2

/-- No two distinct coordinates of a common unit hold the same non-zero
value. -/
def Consistent (b : Board) : Prop :=
  ∀ rc rd : Coord, rc ≠ rd → sameUnit rc rd → b rc.1 rc.2 ≠ 0 →
    b rd.1 rd.2 ≠ b rc.1 rc.2

theorem rowGroup_iff (b : Board) (r c : Fin 9) (h : b r c ≠ 0) :
    1 < (rowGroup b r (b r c)).card ↔ ∃ c', c' ≠ c ∧ b r c' = b r c := by
  have hc : c ∈ rowGroup b r (b r c) := by simp [rowGroup]
  constructor
  · intro hcard
    obtain ⟨c', hc', hne⟩ := Finset.exists_ne_of_one_lt_card hcard c
    exact ⟨c', hne, by simpa [rowGroup] using hc'⟩
  · rintro ⟨c', hne, heq⟩
    exact Finset.one_lt_card.mpr ⟨c', by simp [rowGroup, heq], c, hc, hne⟩

theorem colGroup_iff (b : Board) (r c : Fin 9) (h : b r c ≠ 0) :
    1 < (colGroup b c (b r c)).card ↔ ∃ r', r' ≠ r ∧ b r' c = b r c := by
  have hr : r ∈ colGroup b c (b r c) := by simp [colGroup]
  constructor
  · intro hcard
    obtain ⟨r', hr', hne⟩ := Finset.exists_ne_of_one_lt_card hcard r
    exact ⟨r', hne, by simpa [colGroup] using hr'⟩
  · rintro ⟨r', hne, heq⟩
    exact Finset.one_lt_card.mpr ⟨r', by simp [colGroup, heq], r, hr, hne⟩

theorem boxGroup_iff (b : Board) (rc : Coord) (br bc : Fin 3)
    (hbr : rc.1.val / 3 = br.val) (hbc : rc.2.val / 3 = bc.val)
    (h : b rc.1 rc.2 ≠ 0) :
    1 < (boxGroup b br bc (b rc.1 rc.2)).card ↔
      ∃ rd : Coord, rd ≠ rc ∧ rd.1.val / 3 = br.val ∧ rd.2.val / 3 = bc.val ∧
        b rd.1 rd.2 = b rc.1 rc.2 := by
  have hc : rc ∈ boxGroup b br bc (b rc.1 rc.2) := by
    simp [boxGroup, hbr, hbc]
  constructor
  · intro hcard
    obtain ⟨rd, hrd, hne⟩ := Finset.exists_ne_of_one_lt_card hcard rc
    simp only [boxGroup, Finset.mem_filter, Finset.mem_univ, true_and] at hrd
    exact ⟨rd, hne, hrd.1, hrd.2.1, hrd.2.2⟩
  · rintro ⟨rd, hne, h1, h2, h3⟩
    exact Finset.one_lt_card.mpr ⟨rd, by simp [boxGroup, h1, h2, h3], rc, hc, hne⟩

/-- The code's `find_conflicts` computes exactly the specification's
grouping-based conflict set. -/
theorem find_conflicts_eq_spec (b : Board) : find_conflicts b = specConflicts b := by
  ext rc
  obtain ⟨r, c⟩ := rc
  simp only [find_conflicts, specConflicts, Finset.mem_union, Finset.mem_biUnion,
    Finset.mem_univ, true_and, rowConflicts, colConflicts, boxConflicts,
    Finset.mem_filter, exists_and_left]
  constructor
  · rintro ((⟨idx, h1, h2, h3⟩ | ⟨idx, h1, h2, h3⟩) | ⟨bb, h1, h2, h3, h4⟩)
    · subst h1
      obtain ⟨c', hne, heq⟩ := (rowGroup_iff b r c h2).mp h3
      exact ⟨h2, ⟨r, c'⟩, fun hp => hne (congrArg Prod.snd hp), Or.inl rfl, heq⟩
    · subst h1
      obtain ⟨r', hne, heq⟩ := (colGroup_iff b r c h2).mp h3
      exact ⟨h2, ⟨r', c⟩, fun hp => hne (congrArg Prod.fst hp), Or.inr (Or.inl rfl), heq⟩
    · obtain ⟨rd, hne, hb1, hb2, heq⟩ := (boxGroup_iff b ⟨r, c⟩ bb.1 bb.2 h1 h2 h3).mp h4
      refine ⟨h3, rd, fun hp => hne (hp ▸ rfl), Or.inr (Or.inr ⟨?_, ?_⟩), heq⟩
      · rw [hb1, h1]
      · rw [hb2, h2]
  · rintro ⟨hz, rd, hne, hunit, heq⟩
    rcases hunit with h1 | h2 | ⟨h3, h4⟩
    · left; left
      refine ⟨r, rfl, hz, (rowGroup_iff b r c hz).mpr ⟨rd.2, ?_, ?_⟩⟩
      · intro hc2
        exact hne (Prod.ext h1.symm hc2)
      · have : b rd.1 rd.2 = b r rd.2 := by rw [← h1]
        rw [← this, heq]
    · left; right
      refine ⟨c, rfl, hz, (colGroup_iff b r c hz).mpr ⟨rd.1, ?_, ?_⟩⟩
      · intro hr2
        exact hne (Prod.ext hr2 h2.symm)
      · have : b rd.1 rd.2 = b rd.1 c := by rw [← h2]
        rw [← this, heq]
    · right
      refine ⟨(⟨r.val / 3, by omega⟩, ⟨c.val / 3, by omega⟩), rfl, rfl, hz, ?_⟩
      exact (boxGroup_iff b ⟨r, c⟩ _ _ rfl rfl hz).mpr
        ⟨rd, hne, h3.symm, h4.symm, heq⟩

/-- A board has no conflicts iff it is consistent. -/
theorem find_conflicts_empty_iff (b : Board) :
    find_conflicts b = ∅ ↔ Consistent b := by
  rw [find_conflicts_eq_spec]
  constructor
  · intro h rc rd hne hunit hz heq
    have hmem : rc ∈ specConflicts b := by
      simp only [specConflicts, Finset.mem_filter, Finset.mem_univ, true_and]
      exact ⟨hz, rd, fun hp => hne hp.symm, hunit, heq⟩
    rw [h] at hmem
    exact absurd hmem (Finset.not_mem_empty rc)
  · intro h
    rw [Finset.eq_empty_iff_forall_not_mem]
    intro rc hrc
    simp only [specConflicts, Finset.mem_filter, Finset.mem_univ, true_and] at hrc
    obtain ⟨hz, rd, hne, hunit, heq⟩ := hrc
    exact h rc rd (fun hp => hne hp.symm) hunit hz heq

-- ------------------------- game state ------------------------------------ --

/-- A difficulty preset from the `DIFFICULTIES` table. -/
structure Config where
  holes : Nat
  hints : Nat
  max_mistakes : Nat
deriving DecidableEq

/-- The `DIFFICULTIES` dictionary. -/
def DIFFICULTIES (s : String) : Option Config :=
  if s = "easy" then some ⟨36, 4, 5⟩
  else if s = "medium" then some ⟨45, 3, 4⟩
  else if s = "hard" then some ⟨52, 2, 3⟩
  else if s = "expert" then some ⟨58, 1, 3⟩
  else none

/-- `DIFFICULTIES.get(difficulty, DIFFICULTIES["medium"])`. -/
def getConfig (s : String) : Config :=
  (DIFFICULTIES s).getD ⟨45, 3, 4⟩

/-- The notes dictionary `Dict[Coord, Set[int]]`; an absent key is the empty
set (the code never stores an empty set, so the two are indistinguishable). -/
abbrev Notes := Coord → Finset Nat

/-- One history/future snapshot: puzzle, notes, mistakes, hints_left. -/
abbrev Snapshot := Board × Notes × Nat × Nat

/-- The `SudokuGame` dataclass.  The history and future stacks are lists with
the most recent snapshot first (Python appends/pops at the end). -/
structure SudokuGame where
  puzzle : Board
  solution : Board
  difficulty : String
  hints_left : Nat
  max_mistakes : Nat
  mistakes : Nat
  notes : Notes
  history : List Snapshot
  future : List Snapshot
deriving DecidableEq

/-- `SudokuGame.fixed_cells`: the coordinates where the puzzle is currently
non-zero. -/
def fixed_cells (g : SudokuGame) : Finset Coord :=
  Finset.univ.filter fun rc : Coord => g.puzzle rc.1 rc.2 ≠ 0

/-- The snapshot of the current state (deep copies in the source; values in
the functional model). -/
def snapshotOf (g : SudokuGame) : Snapshot :=
  (deep_copy_board g.puzzle, g.notes, g.mistakes, g.hints_left)

/-- `SudokuGame.push_state`: push the current snapshot onto history and
clear future. -/
def push_state (g : SudokuGame) : SudokuGame :=
  { g with history := snapshotOf g :: g.history, future := [] }

/-- `SudokuGame.undo`. -/
def undo (g : SudokuGame) : SudokuGame :=
  match g.history with
  | [] => g
  | snap :: rest =>
    { g with
      puzzle := snap.1
      notes := snap.2.1
      mistakes := snap.2.2.1
      hints_left := snap.2.2.2
      history := rest
      future := snapshotOf g :: g.future }

/-- `SudokuGame.redo`. -/
def redo (g : SudokuGame) : SudokuGame :=
  match g.future with
  | [] => g
  | snap :: rest =>
    { g with
      puzzle := snap.1
      notes := snap.2.1
      mistakes := snap.2.2.1
      hints_left := snap.2.2.2
      history := snapshotOf g :: g.history
      future := rest }

/-- `SudokuGame.set_value`. -/
def set_value (g : SudokuGame) (coord : Coord) (value : Nat) : SudokuGame :=
  if coord ∈ fixed_cells g then g
  else
    let g1 := push_state g
    { g1 with
      puzzle := update g1.puzzle coord.1 coord.2 value
      notes := fun rc => if rc = coord then ∅ else g1.notes rc
      mistakes :=
        if value ≠ 0 ∧ value ≠ g1.solution coord.1 coord.2 then g1.mistakes + 1
        else g1.mistakes }

/-- `SudokuGame.toggle_note`. -/
def toggle_note (g : SudokuGame) (coord : Coord) (value : Nat) : SudokuGame :=
  if coord ∈ fixed_cells g then g
  else
    let g1 := push_state g
    let note_set := g1.notes coord
    let note_set2 := if value ∈ note_set then note_set.erase value
                     else insert value note_set
    { g1 with notes := fun rc => if rc = coord then note_set2 else g1.notes rc }

/-- `SudokuGame.hint`: the returned value together with the new state. -/
def hint (g : SudokuGame) (coord : Coord) : Option Nat × SudokuGame :=
  if g.hints_left ≤ 0 ∨ coord ∈ fixed_cells g then (none, g)
  else
    let g1 := push_state g
    let g2 :=
      { g1 with
        puzzle := update g1.puzzle coord.1 coord.2 (g1.solution coord.1 coord.2)
        notes := fun rc => if rc = coord then ∅ else g1.notes rc
        hints_left := g1.hints_left - 1 }
    (some (g2.puzzle coord.1 coord.2), g2)

/-- Successive `hint` calls on a list of coordinates. -/
def apply_hints (g : SudokuGame) (coords : List Coord) : SudokuGame :=
  coords.foldl (fun g' c => (hint g' c).2) g

theorem undo_of_history_nil (g : SudokuGame) (h : g.history = []) : undo g = g := by
  unfold undo
  rw [h]

theorem redo_of_future_nil (g : SudokuGame) (h : g.future = []) : redo g = g := by
  unfold redo
  rw [h]

/-- C2: after `push_state` and an arbitrary mutation of the four recorded
components, `undo` restores the pre-mutation puzzle, notes, mistakes and
hints_left, and a subsequent `redo` restores the post-mutation values;
`undo` is a no-op on an empty history and `redo` on an empty future. -/
theorem undo_redo_roundtrip (g : SudokuGame) (p' : Board) (n' : Notes) (m' h' : Nat) :
    (undo { push_state g with puzzle := p', notes := n', mistakes := m', hints_left := h' }).puzzle = g.puzzle ∧
    (undo { push_state g with puzzle := p', notes := n', mistakes := m', hints_left := h' }).notes = g.notes ∧
    (undo { push_state g with puzzle := p', notes := n', mistakes := m', hints_left := h' }).mistakes = g.mistakes ∧
    (undo { push_state g with puzzle := p', notes := n', mistakes := m', hints_left := h' }).hints_left = g.hints_left ∧
    (redo (undo { push_state g with puzzle := p', notes := n', mistakes := m', hints_left := h' })).puzzle = p' ∧
    (redo (undo { push_state g with puzzle := p', notes := n', mistakes := m', hints_left := h' })).notes = n' ∧
    (redo (undo { push_state g with puzzle := p', notes := n', mistakes := m', hints_left := h' })).mistakes = m' ∧
    (redo (undo { push_state g with puzzle := p', notes := n', mistakes := m', hints_left := h' })).hints_left = h' ∧
    (∀ g' : SudokuGame, g'.history = [] → undo g' = g') ∧
    (∀ g' : SudokuGame, g'.future = [] → redo g' = g') := by
  refine ⟨rfl, rfl, rfl, rfl, rfl, rfl, rfl, rfl, undo_of_history_nil, redo_of_future_nil⟩

/-- C3: `set_value` is a no-op on a fixed cell; otherwise it snapshots
(clearing the future), writes the value, drops the notes entry at the
coordinate, and bumps `mistakes` by one exactly when the value is non-zero
and differs from the solution; `mistakes` never decreases. -/
theorem set_value_spec (g : SudokuGame) (coord : Coord) (v : Nat) :
    (coord ∈ fixed_cells g → set_value g coord v = g) ∧
    (coord ∉ fixed_cells g →
      (set_value g coord v).puzzle = update g.puzzle coord.1 coord.2 v ∧
      (set_value g coord v).notes coord = ∅ ∧
      (∀ rc, rc ≠ coord → (set_value g coord v).notes rc = g.notes rc) ∧
      (set_value g coord v).history = snapshotOf g :: g.history ∧
      (set_value g coord v).future = [] ∧
      (set_value g coord v).mistakes =
        (if v ≠ 0 ∧ v ≠ g.solution coord.1 coord.2 then g.mistakes + 1 else g.mistakes)) ∧
    g.mistakes ≤ (set_value g coord v).mistakes := by
  by_cases hf : coord ∈ fixed_cells g
  · refine ⟨fun _ => by rw [set_value, if_pos hf], fun hnf => absurd hf hnf, ?_⟩
    rw [set_value, if_pos hf]
  · refine ⟨fun h => absurd h hf, fun _ => ?_, ?_⟩
    · rw [set_value, if_neg hf]
      exact ⟨rfl, by simp, fun rc hrc => by simp [push_state, hrc], rfl, rfl, rfl⟩
    · rw [set_value, if_neg hf]
      simp only [push_state]
      split <;> omega

theorem coord_ne_components {rc rd : Coord} (h : rc ≠ rd) :
    ¬(rc.1 = rd.1 ∧ rc.2 = rd.2) := by
  rintro ⟨h1, h2⟩
  exact h (Prod.ext h1 h2)

theorem hint_noop (g : SudokuGame) (coord : Coord)
    (h : g.hints_left ≤ 0 ∨ coord ∈ fixed_cells g) : hint g coord = (none, g) := by
  rw [hint, if_pos h]

theorem hint_success (g : SudokuGame) (coord : Coord)
    (h : ¬(g.hints_left ≤ 0 ∨ coord ∈ fixed_cells g)) :
    (hint g coord).1 = some (g.solution coord.1 coord.2) ∧
    (hint g coord).2.puzzle = update g.puzzle coord.1 coord.2 (g.solution coord.1 coord.2) ∧
    (hint g coord).2.notes coord = ∅ ∧
    (∀ rc, rc ≠ coord → (hint g coord).2.notes rc = g.notes rc) ∧
    (hint g coord).2.hints_left = g.hints_left - 1 ∧
    (hint g coord).2.history = snapshotOf g :: g.history ∧
    (hint g coord).2.future = [] := by
  rw [hint, if_neg h]
  refine ⟨?_, rfl, by simp, fun rc hrc => by simp [push_state, hrc], rfl, rfl, rfl⟩
  dsimp only
  rw [update_same]
  rfl

theorem apply_hints_budget : ∀ (coords : List Coord) (g : SudokuGame),
    coords.Nodup → (∀ c ∈ coords, g.puzzle c.1 c.2 = 0) →
    coords.length = g.hints_left → (apply_hints g coords).hints_left = 0
  | [], g, _, _, hlen => by
    rw [apply_hints, List.foldl_nil]
    simpa using hlen.symm
  | c :: rest, g, hnd, hemp, hlen => by
    have hc0 : g.puzzle c.1 c.2 = 0 := hemp c (List.mem_cons_self c rest)
    have hguard : ¬(g.hints_left ≤ 0 ∨ c ∈ fixed_cells g) := by
      rintro (h1 | h2)
      · rw [List.length_cons] at hlen
        omega
      · rw [fixed_cells, Finset.mem_filter] at h2
        exact h2.2 hc0
    obtain ⟨_, hpz, _, _, hhl, _, _⟩ := hint_success g c hguard
    have step : apply_hints g (c :: rest) = apply_hints (hint g c).2 rest := by
      rw [apply_hints, apply_hints, List.foldl_cons]
    rw [step]
    apply apply_hints_budget rest (hint g c).2 (List.Nodup.of_cons hnd)
    · intro d hd
      have hdc : d ≠ c := by
        intro hdc
        subst hdc
        exact (List.nodup_cons.mp hnd).1 hd
      rw [hpz, update_other _ _ _ _ _ _ (coord_ne_components hdc)]
      exact hemp d (List.mem_cons_of_mem c hd)
    · rw [hhl, List.length_cons] at *
      omega

/-- C5: `hint` returns `none` and changes nothing when no hints remain or the
cell is fixed; otherwise it snapshots, writes the solution digit, clears the
notes entry, decrements `hints_left`, and returns the revealed digit.
Starting from `hints_left = h`, `h` calls on distinct empty cells exhaust the
budget and a further call is a no-op. -/
theorem hint_spec (g : SudokuGame) (coord : Coord) (coords : List Coord) :
    ((g.hints_left ≤ 0 ∨ coord ∈ fixed_cells g) → hint g coord = (none, g)) ∧
    (¬(g.hints_left ≤ 0 ∨ coord ∈ fixed_cells g) →
      (hint g coord).1 = some (g.solution coord.1 coord.2) ∧
      (hint g coord).2.puzzle = update g.puzzle coord.1 coord.2 (g.solution coord.1 coord.2) ∧
      (hint g coord).2.notes coord = ∅ ∧
      (hint g coord).2.hints_left = g.hints_left - 1 ∧
      (hint g coord).2.history = snapshotOf g :: g.history ∧
      (hint g coord).2.future = []) ∧
    (coords.Nodup → (∀ c ∈ coords, g.puzzle c.1 c.2 = 0) →
      coords.length = g.hints_left →
      (apply_hints g coords).hints_left = 0 ∧
      ∀ c', hint (apply_hints g coords) c' = (none, apply_hints g coords)) := by
  refine ⟨hint_noop g coord, ?_, ?_⟩
  · intro h
    obtain ⟨h1, h2, h3, _, h5, h6, h7⟩ := hint_success g coord h
    exact ⟨h1, h2, h3, h5, h6, h7⟩
  · intro hnd hemp hlen
    have hz := apply_hints_budget coords g hnd hemp hlen
    exact ⟨hz, fun c' => hint_noop _ c' (Or.inl (le_of_eq hz))⟩

-- ------------------------- fixed-cell invariant --------------------------- --

/-- One play action of the game state machine. -/
inductive Step : SudokuGame → SudokuGame → Prop where
  | set (g : SudokuGame) (coord : Coord) (v : Nat) : Step g (set_value g coord v)
  | note (g : SudokuGame) (coord : Coord) (v : Nat) : Step g (toggle_note g coord v)
  | giveHint (g : SudokuGame) (coord : Coord) : Step g (hint g coord).2
  | back (g : SudokuGame) : Step g (undo g)
  | forward (g : SudokuGame) : Step g (redo g)

/-- States reachable by play actions. -/
inductive Reachable : SudokuGame → SudokuGame → Prop where
  | refl (g : SudokuGame) : Reachable g g
  | tail {g g' g'' : SudokuGame} : Reachable g g' → Step g' g'' → Reachable g g''

/-- The cell at `coord` holds value `v` and has no notes, in the current
state and in every stored snapshot. -/
def CellLocked (coord : Coord) (v : Nat) (g : SudokuGame) : Prop :=
  g.puzzle coord.1 coord.2 = v ∧ g.notes coord = ∅ ∧
  (∀ s ∈ g.history, s.1 coord.1 coord.2 = v ∧ s.2.1 coord = ∅) ∧
  (∀ s ∈ g.future, s.1 coord.1 coord.2 = v ∧ s.2.1 coord = ∅)

theorem locked_fixed {coord : Coord} {v : Nat} {g : SudokuGame}
    (hl : CellLocked coord v g) (hv : v ≠ 0) : coord ∈ fixed_cells g := by
  rw [fixed_cells, Finset.mem_filter]
  exact ⟨Finset.mem_univ _, hl.1 ▸ hv⟩

theorem step_locked {coord : Coord} {v : Nat} {g g' : SudokuGame}
    (hv : v ≠ 0) (hs : Step g g') (hl : CellLocked coord v g) :
    CellLocked coord v g' := by
  obtain ⟨hp, hn, hh, hf⟩ := hl
  have hfix : coord ∈ fixed_cells g := locked_fixed ⟨hp, hn, hh, hf⟩ hv
  have hsnap : (snapshotOf g).1 coord.1 coord.2 = v ∧ (snapshotOf g).2.1 coord = ∅ :=
    ⟨hp, hn⟩
  cases hs with
  | set coord' w =>
    by_cases hfx : coord' ∈ fixed_cells g
    · rw [set_value, if_pos hfx]
      exact ⟨hp, hn, hh, hf⟩
    · have hne : coord ≠ coord' := fun h => hfx (h ▸ hfix)
      rw [set_value, if_neg hfx]
      refine ⟨?_, ?_, ?_, ?_⟩
      · rw [show ({ push_state g with
            puzzle := update (push_state g).puzzle coord'.1 coord'.2 w,
            notes := fun rc => if rc = coord' then ∅ else (push_state g).notes rc,
            mistakes := if w ≠ 0 ∧ w ≠ (push_state g).solution coord'.1 coord'.2
              then (push_state g).mistakes + 1 else (push_state g).mistakes } : SudokuGame).puzzle
          = update g.puzzle coord'.1 coord'.2 w from rfl]
        rw [update_other _ _ _ _ _ _ (coord_ne_components hne)]
        exact hp
      · simp only [hne, if_neg]
        simpa [push_state, hne] using hn
      · intro s hsmem
        rcases List.mem_cons.mp hsmem with h1 | h2
        · rw [h1]
          exact hsnap
        · exact hh s h2
      · intro s hsmem
        exact absurd hsmem (List.not_mem_nil s)
  | note coord' w =>
    by_cases hfx : coord' ∈ fixed_cells g
    · rw [toggle_note, if_pos hfx]
      exact ⟨hp, hn, hh, hf⟩
    · have hne : coord ≠ coord' := fun h => hfx (h ▸ hfix)
      rw [toggle_note, if_neg hfx]
      refine ⟨hp, ?_, ?_, ?_⟩
      · simpa [push_state, hne] using hn
      · intro s hsmem
        rcases List.mem_cons.mp hsmem with h1 | h2
        · rw [h1]
          exact hsnap
        · exact hh s h2
      · intro s hsmem
        exact absurd hsmem (List.not_mem_nil s)
  | giveHint coord' =>
    by_cases hg : g.hints_left ≤ 0 ∨ coord' ∈ fixed_cells g
    · rw [hint, if_pos hg]
      exact ⟨hp, hn, hh, hf⟩
    · have hfx : coord' ∉ fixed_cells g := fun h => hg (Or.inr h)
      have hne : coord ≠ coord' := fun h => hfx (h ▸ hfix)
      rw [hint, if_neg hg]
      refine ⟨?_, ?_, ?_, ?_⟩
      · show update g.puzzle coord'.1 coord'.2 (g.solution coord'.1 coord'.2) coord.1 coord.2 = v
        rw [update_other _ _ _ _ _ _ (coord_ne_components hne)]
        exact hp
      · simpa [push_state, hne] using hn
      · intro s hsmem
        rcases List.mem_cons.mp hsmem with h1 | h2
        · rw [h1]
          exact hsnap
        · exact hh s h2
      · intro s hsmem
        exact absurd hsmem (List.not_mem_nil s)
  | back =>
    rw [undo]
    match hhist : g.history with
    | [] => exact ⟨hp, hn, hh, hf⟩
    | snap :: rest =>
      have hsl := hh snap (hhist ▸ List.mem_cons_self snap rest)
      refine ⟨hsl.1, hsl.2, ?_, ?_⟩
      · intro s hsmem
        exact hh s (hhist ▸ List.mem_cons_of_mem snap hsmem)
      · intro s hsmem
        rcases List.mem_cons.mp hsmem with h1 | h2
        · rw [h1]
          exact hsnap
        · exact hf s h2
  | forward =>
    rw [redo]
    match hfut : g.future with
    | [] => exact ⟨hp, hn, hh, hf⟩
    | snap :: rest =>
      have hsl := hf snap (hfut ▸ List.mem_cons_self snap rest)
      refine ⟨hsl.1, hsl.2, ?_, ?_⟩
      · intro s hsmem
        rcases List.mem_cons.mp hsmem with h1 | h2
        · rw [h1]
          exact hsnap
        · exact hh s h2
      · intro s hsmem
        exact hf s (hfut ▸ List.mem_cons_of_mem snap hsmem)

theorem reachable_locked {coord : Coord} {v : Nat} {g0 g : SudokuGame}
    (hv : v ≠ 0) (hr : Reachable g0 g) (hl : CellLocked coord v g0) :
    CellLocked coord v g := by
  induction hr with
  | refl => exact hl
  | tail _ hs ih => exact step_locked hv hs ih

/-- C4: a coordinate is fixed iff its puzzle cell is currently non-zero; a
coordinate fixed at game start stays immutable under every reachable
sequence of play actions; and a non-zero player entry makes its cell fixed
just like an original given. -/
theorem fixed_cell_immutable (g0 : SudokuGame) (coord : Coord) :
    (∀ g : SudokuGame, coord ∈ fixed_cells g ↔ g.puzzle coord.1 coord.2 ≠ 0) ∧
    (∀ (g : SudokuGame) (w : Nat), w ≠ 0 → coord ∈ fixed_cells (set_value g coord w)) ∧
    (g0.history = [] → g0.future = [] → g0.notes coord = ∅ →
      coord ∈ fixed_cells g0 →
      ∀ g, Reachable g0 g → ∀ w,
        (set_value g coord w).puzzle coord.1 coord.2 = g.puzzle coord.1 coord.2 ∧
        (set_value g coord w).notes coord = g.notes coord ∧
        (toggle_note g coord w).puzzle coord.1 coord.2 = g.puzzle coord.1 coord.2 ∧
        (toggle_note g coord w).notes coord = g.notes coord ∧
        (hint g coord).2.puzzle coord.1 coord.2 = g.puzzle coord.1 coord.2 ∧
        (hint g coord).2.notes coord = g.notes coord) := by
  refine ⟨?_, ?_, ?_⟩
  · intro g
    rw [fixed_cells, Finset.mem_filter]
    simp
  · intro g w hw
    by_cases hfx : coord ∈ fixed_cells g
    · rwa [set_value, if_pos hfx]
    · rw [set_value, if_neg hfx, fixed_cells, Finset.mem_filter]
      refine ⟨Finset.mem_univ _, ?_⟩
      show update g.puzzle coord.1 coord.2 w coord.1 coord.2 ≠ 0
      rw [update_same]
      exact hw
  · intro hh0 hf0 hn0 hfx0 g hr w
    have hv : g0.puzzle coord.1 coord.2 ≠ 0 := by
      rw [fixed_cells, Finset.mem_filter] at hfx0
      exact hfx0.2
    have hl0 : CellLocked coord (g0.puzzle coord.1 coord.2) g0 := by
      refine ⟨rfl, hn0, ?_, ?_⟩
      · intro s hs
        rw [hh0] at hs
        exact absurd hs (List.not_mem_nil s)
      · intro s hs
        rw [hf0] at hs
        exact absurd hs (List.not_mem_nil s)
    have hl := reachable_locked hv hr hl0
    have hfix : coord ∈ fixed_cells g := locked_fixed hl hv
    have h1 : set_value g coord w = g := by rw [set_value, if_pos hfix]
    have h2 : toggle_note g coord w = g := by rw [toggle_note, if_pos hfix]
    have h3 : hint g coord = (none, g) := hint_noop g coord (Or.inr hfix)
    rw [h1, h2, h3]
    exact ⟨rfl, rfl, rfl, rfl, rfl, rfl⟩

-- ------------------------- C6 / C8 --------------------------------------- --

/-- A board with `1` at (0,0) and at (0,5): a same-row duplicate. -/
def boardRowPair : Board :=
  fun r c => if r.val = 0 ∧ (c.val = 0 ∨ c.val = 5) then 1 else 0

/-- A board with `1` at (0,0) and at (1,1): a same-box duplicate. -/
def boardBoxPair : Board :=
  fun r c => if (r.val = 0 ∧ c.val = 0) ∨ (r.val = 1 ∧ c.val = 1) then 1 else 0

/-- C6: `find_conflicts` returns exactly the coordinates of values occupying
more than one cell of some row, column or box, and behaves as required on
the three concrete scenario boards.  (It is a pure function of the board in
this model, as in the source, which never writes to `board`.) -/
theorem find_conflicts_claim :
    (∀ b : Board, find_conflicts b = specConflicts b) ∧
    find_conflicts emptyBoard = ∅ ∧
    find_conflicts boardRowPair = {((0 : Fin 9), (0 : Fin 9)), ((0 : Fin 9), (5 : Fin 9))} ∧
    ((0 : Fin 9), (0 : Fin 9)) ∈ find_conflicts boardBoxPair ∧
    ((1 : Fin 9), (1 : Fin 9)) ∈ find_conflicts boardBoxPair := by
  refine ⟨find_conflicts_eq_spec, by decide, by decide, by decide, by decide⟩

/-- The transposed board. -/
def transpose (b : Board) : Board := fun r c => b c r

theorem is_valid_iff (b : Board) (r c : Fin 9) (n : Nat) :
    is_valid b r c n = true ↔
      (∀ j, b r j ≠ n) ∧ (∀ i, b i c ≠ n) ∧
      (∀ i j, b (boxCell r i) (boxCell c j) ≠ n) := by
  rw [is_valid]
  simp [List.any_eq_true, and_assoc]

theorem any_any_comm (f : Fin 3 → Fin 3 → Bool) :
    ((List.finRange 3).any fun i => (List.finRange 3).any fun j => f i j) =
    ((List.finRange 3).any fun j => (List.finRange 3).any fun i => f i j) := by
  rw [Bool.eq_iff_iff]
  simp only [List.any_eq_true, List.mem_finRange]
  tauto

/-- C8: `is_valid` is symmetric under transposition of the board together
with swapping the row and column arguments. -/
theorem is_valid_transpose (b : Board) (r c : Fin 9) (n : Nat) :
    is_valid b r c n = is_valid (transpose b) c r n := by
  rw [Bool.eq_iff_iff, is_valid_iff, is_valid_iff]
  constructor
  · rintro ⟨hrow, hcol, hbox⟩
    exact ⟨fun j => hcol j, fun i => hrow i, fun i j => hbox j i⟩
  · rintro ⟨hrow, hcol, hbox⟩
    exact ⟨fun j => hcol j, fun i => hrow i, fun i j => hbox j i⟩

-- ------------------------- solver / generator ----------------------------- --

/-- A stream of shuffled digit lists: the `i`-th call of
`random.shuffle(list(range(1, 10)))` inside `_solve` yields `rand i`. -/
abbrev Shuffles := Nat → List Nat

/-- A stream of coordinate draws: iteration `j` of the hole-digging loop
draws `(random.randint(0, 8), random.randint(0, 8)) = draws j`. -/
abbrev Draws := Nat → Coord

mutual

/-- `SudokuGenerator._solve`, fuel-indexed: on success returns the solved
board, on failure `none` (the source undoes every tentative placement, so a
failed call leaves its board unchanged).  The second component is the index
of the next unused entry of the shuffle stream.  The fuel only bounds the
recursion depth; `82` units always suffice since each recursive call fills
one of the at most 81 empty cells. -/
def solveFuel : Nat → Board → Shuffles → Nat → Option Board × Nat
  | 0, _, _, i => (none, i)
  | fuel + 1, b, rand, i =>
    match find_empty b with
    | none => (some b, i)
    | some rc => solveTry fuel b rc.1 rc.2 (rand i) rand (i + 1)
termination_by fuel b rand i => (fuel, 0)

/-- The `for num in nums` loop of `_solve`: place the first valid digit,
recurse, and on failure reset the cell (= keep the board) and continue. -/
def solveTry : Nat → Board → Fin 9 → Fin 9 → List Nat → Shuffles → Nat → Option Board × Nat
  | _, _, _, _, [], _, i => (none, i)
  | fuel, b, r, c, num :: rest, rand, i =>
    if is_valid b r c num then
      match solveFuel fuel (update b r c num) rand i with
      | (some s, i') => (some s, i')
      | (none, i') => solveTry fuel b r c rest rand i'
    else solveTry fuel b r c rest rand i
termination_by fuel b r c nums rand i => (fuel, nums.length + 1)

end

mutual

/-- `SudokuGenerator._count_solutions`, fuel-indexed, with the board
threaded through explicitly so that the source's in-place writes and resets
stay visible: the result is the accumulated count together with the board
as the call leaves it. -/
def countFuel : Nat → Board → Nat → Nat × Board
  | 0, b, _ => (0, b)
  | fuel + 1, b, limit =>
    match find_empty b with
    | none => (1, b)
    | some rc => countTry fuel b rc.1 rc.2 (List.range' 1 9) 0 limit
termination_by fuel b limit => (fuel, 0)

/-- The `for num in range(1, 10)` loop of `_count_solutions`: place `num`,
recurse, reset the cell to `0`, and break once `count >= limit`. -/
def countTry : Nat → Board → Fin 9 → Fin 9 → List Nat → Nat → Nat → Nat × Board
  | _, b, _, _, [], count, _ => (count, b)
  | fuel, b, r, c, num :: rest, count, limit =>
    if is_valid b r c num then
      let p := countFuel fuel (update b r c num) limit
      let b2 := update p.2 r c 0
      let count2 := count + p.1
      if limit ≤ count2 then (count2, b2)
      else countTry fuel b2 r c rest count2 limit
    else countTry fuel b r c rest count limit
termination_by fuel b r c nums count limit => (fuel, nums.length + 1)

end

/-- `_count_solutions(board, limit)` as the callers use it: the returned
count (82 units of fuel always suffice for the 9×9 board). -/
def count_solutions (b : Board) (limit : Nat) : Nat :=
  (countFuel 82 b limit).1

/-- The `while removed < holes and attempts > 0` loop of
`SudokuGenerator._dig_holes`; `attempts` strictly decreases every
iteration. -/
def digLoop : Nat → Nat → Board → Nat → Draws → Nat → Board
  | 0, _, b, _, _, _ => b
  | attempts + 1, removed, b, holes, draws, j =>
    if holes ≤ removed then b
    else if b (draws j).1 (draws j).2 = 0 then
      digLoop attempts removed b holes draws (j + 1)
    else if count_solutions (deep_copy_board (update b (draws j).1 (draws j).2 0)) 2 = 1 then
      digLoop attempts (removed + 1) (update b (draws j).1 (draws j).2 0) holes draws (j + 1)
    else
      digLoop attempts removed
        (update (update b (draws j).1 (draws j).2 0) (draws j).1 (draws j).2
          (b (draws j).1 (draws j).2)) holes draws (j + 1)

/-- `SudokuGenerator._dig_holes(board, holes)` with `attempts = holes * 6`. -/
def dig_holes (b : Board) (holes : Nat) (draws : Draws) : Board :=
  digLoop (holes * 6) 0 b holes draws 0

/-- The board after `self._solve(board)`: the solved board on success,
unchanged on failure (the return value is discarded by `generate`). -/
def solveBoard (b : Board) (rand : Shuffles) : Board :=
  match (solveFuel 82 b rand 0).1 with
  | some s => s
  | none => b

/-- `SudokuGenerator.generate(difficulty)`: solve an empty board, copy it as
the solution, dig holes per the difficulty's hole count, and return
`(puzzle, solution)`. -/
def generate (difficulty : String) (rand : Shuffles) (draws : Draws) : Board × Board :=
  let config := getConfig difficulty
  let board := solveBoard emptyBoard rand
  let solution := deep_copy_board board
  let puzzle := dig_holes board config.holes draws
  (puzzle, solution)

/-- `SudokuGame.new(difficulty)`. -/
def newGame (difficulty : String) (rand : Shuffles) (draws : Draws) : SudokuGame :=
  let ps := generate difficulty rand draws
  let cfg := getConfig difficulty
  { puzzle := ps.1
    solution := ps.2
    difficulty := difficulty
    hints_left := cfg.hints
    max_mistakes := cfg.max_mistakes
    mistakes := 0
    notes := fun _ => ∅
    history := []
    future := [] }

-- ------------------------- C10: counter frame ----------------------------- --

theorem countTry_snd (fuel : Nat)
    (IH : ∀ b limit, (countFuel fuel b limit).2 = b) :
    ∀ (nums : List Nat) (b : Board) (r c : Fin 9) (count limit : Nat),
      b r c = 0 → (countTry fuel b r c nums count limit).2 = b
  | [], b, r, c, count, limit, _ => by rw [countTry]
  | num :: rest, b, r, c, count, limit, hz => by
    by_cases hv : is_valid b r c num
    · rw [countTry, if_pos hv]
      simp only [IH, update_update, update_self b r c 0 hz]
      split
      · rfl
      · exact countTry_snd fuel IH rest b r c _ limit hz
    · rw [countTry, if_neg hv]
      exact countTry_snd fuel IH rest b r c count limit hz

/-- C10: `_count_solutions` resets every digit it tentatively places, so the
board it hands back is exactly the board it was given — for every fuel,
every board and every limit. -/
theorem count_solutions_frame : ∀ (fuel : Nat) (b : Board) (limit : Nat),
    (countFuel fuel b limit).2 = b := by
  intro fuel
  induction fuel with
  | zero => intro b limit; rw [countFuel]
  | succ fuel ih =>
    intro b limit
    rw [countFuel]
    cases hfe : find_empty b with
    | none => rfl
    | some rc =>
      have hz : b rc.1 rc.2 = 0 := find_empty_spec b rc.1 rc.2 (by rwa [Prod.mk.eta])
      exact countTry_snd fuel ih (List.range' 1 9) b rc.1 rc.2 0 limit hz

-- ------------------------- concrete witnesses ----------------------------- --

/-- A small concrete game state: one given at (0,0), solution all 5s,
three hints, fresh counters and stacks. -/
def demoGame : SudokuGame :=
  { puzzle := fun r c => if r.val = 0 ∧ c.val = 0 then 5 else 0
    solution := fun _ _ => 5
    difficulty := "medium"
    hints_left := 3
    max_mistakes := 4
    mistakes := 0
    notes := fun _ => ∅
    history := []
    future := [] }

theorem undo_redo_roundtrip_witness :
    (undo { push_state demoGame with puzzle := emptyBoard, notes := fun _ => ∅, mistakes := 1, hints_left := 2 }).puzzle = demoGame.puzzle ∧
    (undo { push_state demoGame with puzzle := emptyBoard, notes := fun _ => ∅, mistakes := 1, hints_left := 2 }).notes = demoGame.notes ∧
    (undo { push_state demoGame with puzzle := emptyBoard, notes := fun _ => ∅, mistakes := 1, hints_left := 2 }).mistakes = demoGame.mistakes ∧
    (undo { push_state demoGame with puzzle := emptyBoard, notes := fun _ => ∅, mistakes := 1, hints_left := 2 }).hints_left = demoGame.hints_left ∧
    (redo (undo { push_state demoGame with puzzle := emptyBoard, notes := fun _ => ∅, mistakes := 1, hints_left := 2 })).puzzle = emptyBoard ∧
    (redo (undo { push_state demoGame with puzzle := emptyBoard, notes := fun _ => ∅, mistakes := 1, hints_left := 2 })).notes = (fun _ => ∅) ∧
    (redo (undo { push_state demoGame with puzzle := emptyBoard, notes := fun _ => ∅, mistakes := 1, hints_left := 2 })).mistakes = 1 ∧
    (redo (undo { push_state demoGame with puzzle := emptyBoard, notes := fun _ => ∅, mistakes := 1, hints_left := 2 })).hints_left = 2 ∧
    undo demoGame = demoGame ∧ redo demoGame = demoGame := by
  have h := undo_redo_roundtrip demoGame emptyBoard (fun _ => ∅) 1 2
  exact ⟨h.1, h.2.1, h.2.2.1, h.2.2.2.1, h.2.2.2.2.1, h.2.2.2.2.2.1,
    h.2.2.2.2.2.2.1, h.2.2.2.2.2.2.2.1,
    h.2.2.2.2.2.2.2.2.1 demoGame rfl, h.2.2.2.2.2.2.2.2.2 demoGame rfl⟩

theorem set_value_spec_witness :
    set_value demoGame ((0 : Fin 9), (0 : Fin 9)) 3 = demoGame ∧
    (set_value demoGame ((0 : Fin 9), (1 : Fin 9)) 3).puzzle =
      update demoGame.puzzle 0 1 3 ∧
    (set_value demoGame ((0 : Fin 9), (1 : Fin 9)) 3).notes ((0 : Fin 9), (1 : Fin 9)) = ∅ ∧
    (set_value demoGame ((0 : Fin 9), (1 : Fin 9)) 3).future = [] ∧
    (set_value demoGame ((0 : Fin 9), (1 : Fin 9)) 3).mistakes =
      (if (3 : Nat) ≠ 0 ∧ (3 : Nat) ≠ demoGame.solution 0 1 then demoGame.mistakes + 1
       else demoGame.mistakes) ∧
    demoGame.mistakes ≤ (set_value demoGame ((0 : Fin 9), (1 : Fin 9)) 5).mistakes := by
  have hfix := set_value_spec demoGame ((0 : Fin 9), (0 : Fin 9)) 3
  have hfree := set_value_spec demoGame ((0 : Fin 9), (1 : Fin 9)) 3
  have hok := set_value_spec demoGame ((0 : Fin 9), (1 : Fin 9)) 5
  have hn : ((0 : Fin 9), (1 : Fin 9)) ∉ fixed_cells demoGame := by decide
  exact ⟨hfix.1 (by decide), (hfree.2.1 hn).1, (hfree.2.1 hn).2.1,
    (hfree.2.1 hn).2.2.2.2.1, (hfree.2.1 hn).2.2.2.2.2, hok.2.2⟩

theorem fixed_cell_immutable_witness :
    (((0 : Fin 9), (0 : Fin 9)) ∈ fixed_cells demoGame ↔ demoGame.puzzle 0 0 ≠ 0) ∧
    ((0 : Fin 9), (0 : Fin 9)) ∈ fixed_cells (set_value demoGame ((0 : Fin 9), (0 : Fin 9)) 7) ∧
    (set_value demoGame ((0 : Fin 9), (0 : Fin 9)) 9).puzzle 0 0 = demoGame.puzzle 0 0 ∧
    (toggle_note demoGame ((0 : Fin 9), (0 : Fin 9)) 9).notes ((0 : Fin 9), (0 : Fin 9)) =
      demoGame.notes ((0 : Fin 9), (0 : Fin 9)) ∧
    (hint demoGame ((0 : Fin 9), (0 : Fin 9))).2.puzzle 0 0 = demoGame.puzzle 0 0 := by
  have h := fixed_cell_immutable demoGame ((0 : Fin 9), (0 : Fin 9))
  have hrest := h.2.2 rfl rfl rfl (by decide) demoGame (Reachable.refl demoGame) 9
  exact ⟨h.1 demoGame, h.2.1 demoGame 7 (by decide), hrest.1, hrest.2.2.2.1, hrest.2.2.2.2.1⟩

theorem hint_spec_witness :
    hint demoGame ((0 : Fin 9), (0 : Fin 9)) = (none, demoGame) ∧
    (hint demoGame ((0 : Fin 9), (1 : Fin 9))).1 = some (demoGame.solution 0 1) ∧
    (hint demoGame ((0 : Fin 9), (1 : Fin 9))).2.hints_left = demoGame.hints_left - 1 ∧
    (apply_hints demoGame
      [((0 : Fin 9), (1 : Fin 9)), ((0 : Fin 9), (2 : Fin 9)), ((0 : Fin 9), (3 : Fin 9))]).hints_left = 0 ∧
    hint (apply_hints demoGame
      [((0 : Fin 9), (1 : Fin 9)), ((0 : Fin 9), (2 : Fin 9)), ((0 : Fin 9), (3 : Fin 9))])
      ((0 : Fin 9), (4 : Fin 9)) =
      (none, apply_hints demoGame
        [((0 : Fin 9), (1 : Fin 9)), ((0 : Fin 9), (2 : Fin 9)), ((0 : Fin 9), (3 : Fin 9))]) := by
  have h0 := hint_spec demoGame ((0 : Fin 9), (0 : Fin 9)) []
  have h := hint_spec demoGame ((0 : Fin 9), (1 : Fin 9))
    [((0 : Fin 9), (1 : Fin 9)), ((0 : Fin 9), (2 : Fin 9)), ((0 : Fin 9), (3 : Fin 9))]
  have hbudget := h.2.2 (by decide) (by decide) (by decide)
  exact ⟨h0.1 (by decide), (h.2.1 (by decide)).1, (h.2.1 (by decide)).2.2.2.1,
    hbudget.1, hbudget.2 _⟩

-- ------------------------- solver correctness ----------------------------- --

/-- `s` completes `b`: they agree on every non-zero cell of `b`. -/
def Extends (b s : Board) : Prop :=
  ∀ r c, b r c ≠ 0 → s r c = b r c

/-- Every cell holds a digit 1–9. -/
def Filled (s : Board) : Prop :=
  ∀ r c, 1 ≤ s r c ∧ s r c ≤ 9

theorem consistent_update {b : Board} {r c : Fin 9} {n : Nat}
    (hb : Consistent b) (hz : b r c = 0) (hv : is_valid b r c n = true) :
    Consistent (update b r c n) := by
  obtain ⟨hrow, hcol, hbox⟩ := (is_valid_iff b r c n).mp hv
  intro rc rd hne hunit hnz
  by_cases hrc : rc = (r, c) <;> by_cases hrd : rd = (r, c)
  · exact absurd (hrc.trans hrd.symm) hne
  · subst hrc
    have hother : ¬(rd.1 = r ∧ rd.2 = c) := by
      rintro ⟨h1, h2⟩
      exact hrd (Prod.ext h1 h2)
    rw [show ((r, c) : Coord).1 = r from rfl, show ((r, c) : Coord).2 = c from rfl,
      update_same, update_other _ _ _ _ _ _ hother]
    intro habs
    rcases hunit with h1 | h2 | ⟨h3, h4⟩
    · exact hrow rd.2 (by rw [show r = rd.1 from h1]; exact habs)
    · exact hcol rd.1 (by rw [show c = rd.2 from h2]; exact habs)
    · have hi : rd.1.val % 3 < 3 := Nat.mod_lt _ (by omega)
      have hj : rd.2.val % 3 < 3 := Nat.mod_lt _ (by omega)
      have hb1 : boxCell r ⟨rd.1.val % 3, hi⟩ = rd.1 := by
        apply Fin.ext
        show r.val / 3 * 3 + rd.1.val % 3 = rd.1.val
        have h3' : r.val / 3 = rd.1.val / 3 := h3
        omega
      have hb2 : boxCell c ⟨rd.2.val % 3, hj⟩ = rd.2 := by
        apply Fin.ext
        show c.val / 3 * 3 + rd.2.val % 3 = rd.2.val
        have h4' : c.val / 3 = rd.2.val / 3 := h4
        omega
      exact hbox ⟨rd.1.val % 3, hi⟩ ⟨rd.2.val % 3, hj⟩ (by rw [hb1, hb2]; exact habs)
  · subst hrd
    have hother : ¬(rc.1 = r ∧ rc.2 = c) := by
      rintro ⟨h1, h2⟩
      exact hne (Prod.ext h1 h2)
    rw [show ((r, c) : Coord).1 = r from rfl, show ((r, c) : Coord).2 = c from rfl,
      update_same, update_other _ _ _ _ _ _ hother]
    rw [update_other _ _ _ _ _ _ hother] at hnz
    intro habs
    rcases hunit with h1 | h2 | ⟨h3, h4⟩
    · exact hrow rc.2 (by rw [show (r : Fin 9) = rc.1 from h1.symm]; exact habs.symm)
    · exact hcol rc.1 (by rw [show (c : Fin 9) = rc.2 from h2.symm]; exact habs.symm)
    · have hi : rc.1.val % 3 < 3 := Nat.mod_lt _ (by omega)
      have hj : rc.2.val % 3 < 3 := Nat.mod_lt _ (by omega)
      have hb1 : boxCell r ⟨rc.1.val % 3, hi⟩ = rc.1 := by
        apply Fin.ext
        show r.val / 3 * 3 + rc.1.val % 3 = rc.1.val
        have h3' : rc.1.val / 3 = r.val / 3 := h3
        omega
      have hb2 : boxCell c ⟨rc.2.val % 3, hj⟩ = rc.2 := by
        apply Fin.ext
        show c.val / 3 * 3 + rc.2.val % 3 = rc.2.val
        have h4' : rc.2.val / 3 = c.val / 3 := h4
        omega
      exact hbox ⟨rc.1.val % 3, hi⟩ ⟨rc.2.val % 3, hj⟩ (by rw [hb1, hb2]; exact habs.symm)
  · have ho1 : ¬(rc.1 = r ∧ rc.2 = c) := by
      rintro ⟨h1, h2⟩
      exact hrc (Prod.ext h1 h2)
    have ho2 : ¬(rd.1 = r ∧ rd.2 = c) := by
      rintro ⟨h1, h2⟩
      exact hrd (Prod.ext h1 h2)
    rw [update_other _ _ _ _ _ _ ho1] at hnz
    rw [update_other _ _ _ _ _ _ ho1, update_other _ _ _ _ _ _ ho2]
    exact hb rc rd hne hunit hnz

/-- The digit a consistent completion puts in an empty cell passes
`is_valid` on the partial board. -/
theorem is_valid_of_extends {b s : Board} {r c : Fin 9}
    (hext : Extends b s) (hcons : Consistent s) (hz : b r c = 0)
    (hs : s r c ≠ 0) : is_valid b r c (s r c) = true := by
  rw [is_valid_iff]
  refine ⟨?_, ?_, ?_⟩
  · intro j habs
    have hbj : b r j ≠ 0 := by rw [habs]; exact hs
    have hsj : s r j = s r c := by rw [hext r j hbj, habs]
    have hne : ((r, c) : Coord) ≠ (r, j) := by
      intro hp
      have hcj : c = j := congrArg Prod.snd hp
      apply hs
      rw [← habs, ← hcj]
      exact hz
    exact hcons (r, c) (r, j) hne (Or.inl rfl) hs hsj
  · intro i habs
    have hbi : b i c ≠ 0 := by rw [habs]; exact hs
    have hsi : s i c = s r c := by rw [hext i c hbi, habs]
    have hne : ((r, c) : Coord) ≠ (i, c) := by
      intro hp
      have hri : r = i := congrArg Prod.fst hp
      apply hs
      rw [← habs, ← hri]
      exact hz
    exact hcons (r, c) (i, c) hne (Or.inr (Or.inl rfl)) hs hsi
  · intro i j habs
    have hbb : b (boxCell r i) (boxCell c j) ≠ 0 := by rw [habs]; exact hs
    have hsb : s (boxCell r i) (boxCell c j) = s r c := by
      rw [hext _ _ hbb, habs]
    have hne : ((r, c) : Coord) ≠ (boxCell r i, boxCell c j) := by
      intro hp
      have h1 : r = boxCell r i := congrArg Prod.fst hp
      have h2 : c = boxCell c j := congrArg Prod.snd hp
      apply hs
      rw [← habs, ← h1, ← h2]
      exact hz
    refine hcons (r, c) (boxCell r i, boxCell c j) hne (Or.inr (Or.inr ⟨?_, ?_⟩)) hs hsb
    · show r.val / 3 = (r.val / 3 * 3 + i.val) / 3
      omega
    · show c.val / 3 = (c.val / 3 * 3 + j.val) / 3
      omega

theorem solveTry_sound (fuel : Nat)
    (IH : ∀ b rand i s i', solveFuel fuel b rand i = (some s, i') →
      Consistent b → Consistent s ∧ find_empty s = none) :
    ∀ (nums : List Nat) (b : Board) (r c : Fin 9) (rand : Shuffles) (i : Nat)
      (s : Board) (i' : Nat),
      solveTry fuel b r c nums rand i = (some s, i') →
      Consistent b → b r c = 0 → Consistent s ∧ find_empty s = none
  | [], b, r, c, rand, i, s, i', h => by
    rw [solveTry] at h
    exact absurd (congrArg Prod.fst h) (by simp)
  | num :: rest, b, r, c, rand, i, s, i', h => by
    intro hcons hz
    rw [solveTry] at h
    by_cases hv : is_valid b r c num
    · rw [if_pos hv] at h
      cases hcall : solveFuel fuel (update b r c num) rand i with
      | mk fst i2 =>
        cases fst with
        | some s2 =>
          rw [hcall] at h
          have hs2 : s2 = s := by
            have := congrArg Prod.fst h
            simpa using this
          subst hs2
          exact IH _ rand i s2 i2 hcall (consistent_update hcons hz hv)
        | none =>
          rw [hcall] at h
          exact solveTry_sound fuel IH rest b r c rand i2 s i' h hcons hz
    · rw [if_neg hv] at h
      exact solveTry_sound fuel IH rest b r c rand i s i' h hcons hz

theorem solveFuel_sound : ∀ (fuel : Nat) (b : Board) (rand : Shuffles) (i : Nat)
    (s : Board) (i' : Nat), solveFuel fuel b rand i = (some s, i') →
    Consistent b → Consistent s ∧ find_empty s = none := by
  intro fuel
  induction fuel with
  | zero =>
    intro b rand i s i' h
    rw [solveFuel] at h
    exact absurd (congrArg Prod.fst h) (by simp)
  | succ fuel ih =>
    intro b rand i s i' h hcons
    rw [solveFuel] at h
    cases hfe : find_empty b with
    | none =>
      rw [hfe] at h
      have hs : b = s := by
        have := congrArg Prod.fst h
        simpa using this
      subst hs
      exact ⟨hcons, hfe⟩
    | some rc =>
      rw [hfe] at h
      have hz : b rc.1 rc.2 = 0 := find_empty_spec b rc.1 rc.2 (by rwa [Prod.mk.eta])
      exact solveTry_sound fuel ih (rand i) b rc.1 rc.2 rand (i + 1) s i' h hcons hz

theorem solveTry_complete (fuel : Nat) :
    ∀ (nums : List Nat) (b : Board) (r c : Fin 9) (rand : Shuffles) (i : Nat)
      (d : Nat), d ∈ nums → is_valid b r c d = true →
      (∀ j, ∃ s' i', solveFuel fuel (update b r c d) rand j = (some s', i')) →
      ∃ s' i', solveTry fuel b r c nums rand i = (some s', i')
  | [], b, r, c, rand, i, d, hmem, _, _ => absurd hmem (List.not_mem_nil d)
  | num :: rest, b, r, c, rand, i, d, hmem, hvd, hsucc => by
    by_cases hv : is_valid b r c num
    · cases hcall : solveFuel fuel (update b r c num) rand i with
      | mk fst i2 =>
        cases fst with
        | some s2 =>
          refine ⟨s2, i2, ?_⟩
          rw [solveTry, if_pos hv, hcall]
        | none =>
          by_cases hnd : num = d
          · subst hnd
            obtain ⟨s', i', hs⟩ := hsucc i
            rw [hcall] at hs
            exact absurd (congrArg Prod.fst hs) (by simp)
          · have hrest : d ∈ rest := by
              rcases List.mem_cons.mp hmem with h1 | h2
              · exact absurd h1.symm hnd
              · exact h2
            obtain ⟨s', i', hs⟩ := solveTry_complete fuel rest b r c rand i2 d hrest hvd hsucc
            refine ⟨s', i', ?_⟩
            rw [solveTry, if_pos hv, hcall]
            exact hs
    · have hnd : num ≠ d := fun h => hv (h ▸ hvd)
      have hrest : d ∈ rest := by
        rcases List.mem_cons.mp hmem with h1 | h2
        · exact absurd h1.symm hnd
        · exact h2
      obtain ⟨s', i', hs⟩ := solveTry_complete fuel rest b r c rand i d hrest hvd hsucc
      refine ⟨s', i', ?_⟩
      rw [solveTry, if_neg hv]
      exact hs

theorem solveFuel_complete : ∀ (fuel : Nat) (b : Board) (rand : Shuffles) (i : Nat),
    emptyCount b < fuel →
    (∀ j n, 1 ≤ n → n ≤ 9 → n ∈ rand j) →
    (∃ s, Extends b s ∧ Consistent s ∧ Filled s) →
    ∃ s' i', solveFuel fuel b rand i = (some s', i') := by
  intro fuel
  induction fuel with
  | zero =>
    intro b rand i hfuel
    omega
  | succ fuel ih =>
    intro b rand i hfuel hrand hex
    obtain ⟨s, hext, hcons, hfill⟩ := hex
    cases hfe : find_empty b with
    | none =>
      refine ⟨b, i, ?_⟩
      rw [solveFuel, hfe]
    | some rc =>
      have hz : b rc.1 rc.2 = 0 := find_empty_spec b rc.1 rc.2 (by rwa [Prod.mk.eta])
      set d := s rc.1 rc.2 with hd
      have hd19 := hfill rc.1 rc.2
      have hdz : d ≠ 0 := by omega
      have hvd : is_valid b rc.1 rc.2 d = true :=
        is_valid_of_extends hext hcons hz hdz
      have hext' : Extends (update b rc.1 rc.2 d) s := by
        intro r' c' hnz'
        by_cases hc : r' = rc.1 ∧ c' = rc.2
        · obtain ⟨h1, h2⟩ := hc
          subst h1; subst h2
          rw [update_same]
        · rw [update_other _ _ _ _ _ _ hc] at hnz' ⊢
          exact hext r' c' hnz'
      have hlt : emptyCount (update b rc.1 rc.2 d) < fuel := by
        have := emptyCount_update_lt b rc.1 rc.2 d hz hdz
        omega
      have hsucc : ∀ j, ∃ s' i',
          solveFuel fuel (update b rc.1 rc.2 d) rand j = (some s', i') := by
        intro j
        exact ih (update b rc.1 rc.2 d) rand j hlt hrand ⟨s, hext', hcons, hfill⟩
      have hmem : d ∈ rand i := hrand i d (by omega) (by omega)
      obtain ⟨s', i', hs⟩ :=
        solveTry_complete fuel (rand i) b rc.1 rc.2 rand (i + 1) d hmem hvd hsucc
      refine ⟨s', i', ?_⟩
      rw [solveFuel, hfe]
      exact hs

/-- A concrete complete, consistent, digit-filled board (the shifted
pattern grid), witnessing that the empty board has a completion. -/
def patternBoard : Board :=
  fun r c => (3 * (r.val % 3) + r.val / 3 + c.val) % 9 + 1

instance (b : Board) : Decidable (Consistent b) := by
  unfold Consistent
  infer_instance

instance (b : Board) : Decidable (Filled b) := by
  unfold Filled
  infer_instance

set_option maxRecDepth 40000 in
theorem patternBoard_consistent : Consistent patternBoard := by decide

set_option maxRecDepth 10000 in
theorem patternBoard_filled : Filled patternBoard := by decide

theorem emptyBoard_consistent : Consistent emptyBoard := by
  intro rc rd _ _ hz
  exact absurd rfl hz

set_option maxRecDepth 10000 in
theorem emptyBoard_emptyCount : emptyCount emptyBoard = 81 := by decide

/-- C7: `_solve` on the fully empty board always succeeds (for every stream
of shuffled digit lists): it returns a board with no empty cell in which
every placement passed `_is_valid`, hence a conflict-free complete grid. -/
theorem solve_empty_succeeds (rand : Shuffles) (i : Nat)
    (hrand : ∀ j n, 1 ≤ n → n ≤ 9 → n ∈ rand j) :
    ∃ s i', solveFuel 82 emptyBoard rand i = (some s, i') ∧
      find_empty s = none ∧ (∀ r c, s r c ≠ 0) ∧
      Consistent s ∧ find_conflicts s = ∅ := by
  obtain ⟨s, i', hs⟩ := solveFuel_complete 82 emptyBoard rand i
    (by rw [emptyBoard_emptyCount]; omega) hrand
    ⟨patternBoard, fun r c h => absurd rfl h, patternBoard_consistent, patternBoard_filled⟩
  obtain ⟨hcons, hnone⟩ := solveFuel_sound 82 emptyBoard rand i s i' hs emptyBoard_consistent
  exact ⟨s, i', hs, hnone, (find_empty_eq_none s).mp hnone, hcons,
    (find_conflicts_empty_iff s).mpr hcons⟩

/-- Witness for C7 at the identity shuffle stream. -/
theorem solve_empty_succeeds_witness :
    ∃ s i', solveFuel 82 emptyBoard (fun _ => List.range' 1 9) 0 = (some s, i') ∧
      find_empty s = none ∧ (∀ r c, s r c ≠ 0) ∧
      Consistent s ∧ find_conflicts s = ∅ := by
  apply solve_empty_succeeds (fun _ => List.range' 1 9) 0
  intro j n h1 h2
  interval_cases n <;> decide

-- ------------------------- C1 / C9 --------------------------------------- --

/-- Through the digging loop, every non-zero cell still agrees with `sol`
and the board keeps exactly one completion (`_count_solutions` check). -/
theorem digLoop_invariant : ∀ (attempts removed holes j : Nat) (b sol : Board)
    (draws : Draws),
    (∀ r c, b r c ≠ 0 → b r c = sol r c) →
    count_solutions b 2 = 1 →
    (∀ r c, digLoop attempts removed b holes draws j r c ≠ 0 →
      digLoop attempts removed b holes draws j r c = sol r c) ∧
    count_solutions (digLoop attempts removed b holes draws j) 2 = 1
  | 0, removed, holes, j, b, sol, draws, hag, hcnt => ⟨hag, hcnt⟩
  | attempts + 1, removed, holes, j, b, sol, draws, hag, hcnt => by
    rw [digLoop]
    by_cases hstop : holes ≤ removed
    · rw [if_pos hstop]
      exact ⟨hag, hcnt⟩
    · rw [if_neg hstop]
      by_cases hzero : b (draws j).1 (draws j).2 = 0
      · rw [if_pos hzero]
        exact digLoop_invariant attempts removed holes (j + 1) b sol draws hag hcnt
      · rw [if_neg hzero]
        by_cases hone :
            count_solutions (deep_copy_board (update b (draws j).1 (draws j).2 0)) 2 = 1
        · rw [if_pos hone]
          apply digLoop_invariant attempts (removed + 1) holes (j + 1) _ sol draws
          · intro r' c' hnz
            by_cases hc : r' = (draws j).1 ∧ c' = (draws j).2
            · rw [update, if_pos hc] at hnz
              exact absurd rfl hnz
            · rw [update_other _ _ _ _ _ _ hc] at hnz ⊢
              exact hag r' c' hnz
          · exact hone
        · rw [if_neg hone]
          have hrestore :
              update (update b (draws j).1 (draws j).2 0) (draws j).1 (draws j).2
                (b (draws j).1 (draws j).2) = b := by
            rw [update_update, update_self _ _ _ _ rfl]
          rw [hrestore]
          exact digLoop_invariant attempts removed holes (j + 1) b sol draws hag hcnt

/-- C1: the solution half of `generate` is a complete conflict-free grid
with no zeros, the puzzle agrees with the solution on every non-zero cell,
and the puzzle passes the uniqueness check `count_solutions(puzzle, 2) = 1`
— for every difficulty and all streams of shuffles and coordinate draws. -/
theorem generate_spec (difficulty : String) (rand : Shuffles) (draws : Draws)
    (hrand : ∀ j n, 1 ≤ n → n ≤ 9 → n ∈ rand j) :
    find_conflicts (generate difficulty rand draws).2 = ∅ ∧
    (∀ r c, (generate difficulty rand draws).2 r c ≠ 0) ∧
    (∀ r c, (generate difficulty rand draws).1 r c ≠ 0 →
      (generate difficulty rand draws).1 r c = (generate difficulty rand draws).2 r c) ∧
    count_solutions (generate difficulty rand draws).1 2 = 1 := by
  obtain ⟨s, i', hs, hnone, hnz, hcons, hconf⟩ := solve_empty_succeeds rand 0 hrand
  have hboard : solveBoard emptyBoard rand = s := by
    rw [solveBoard, congrArg Prod.fst hs]
  have hgen : generate difficulty rand draws =
      (dig_holes s (getConfig difficulty).holes draws, s) := by
    rw [show generate difficulty rand draws =
      (dig_holes (solveBoard emptyBoard rand) (getConfig difficulty).holes draws,
        deep_copy_board (solveBoard emptyBoard rand)) from rfl, hboard]
    rfl
  have hcnt1 : count_solutions s 2 = 1 := by
    rw [count_solutions]
    show (countFuel (81 + 1) s 2).1 = 1
    rw [countFuel, hnone]
  have hdig := digLoop_invariant ((getConfig difficulty).holes * 6) 0
    (getConfig difficulty).holes 0 s s draws (fun _ _ _ => rfl) hcnt1
  rw [hgen]
  exact ⟨hconf, hnz, fun r c h => hdig.1 r c h, hdig.2⟩

/-- Witness for C1 at difficulty "easy", the identity shuffle stream and a
constant coordinate stream. -/
theorem generate_spec_witness :
    find_conflicts (generate "easy" (fun _ => List.range' 1 9)
      (fun _ => ((0 : Fin 9), (0 : Fin 9)))).2 = ∅ ∧
    (∀ r c, (generate "easy" (fun _ => List.range' 1 9)
      (fun _ => ((0 : Fin 9), (0 : Fin 9)))).2 r c ≠ 0) ∧
    (∀ r c, (generate "easy" (fun _ => List.range' 1 9)
        (fun _ => ((0 : Fin 9), (0 : Fin 9)))).1 r c ≠ 0 →
      (generate "easy" (fun _ => List.range' 1 9)
        (fun _ => ((0 : Fin 9), (0 : Fin 9)))).1 r c =
      (generate "easy" (fun _ => List.range' 1 9)
        (fun _ => ((0 : Fin 9), (0 : Fin 9)))).2 r c) ∧
    count_solutions (generate "easy" (fun _ => List.range' 1 9)
      (fun _ => ((0 : Fin 9), (0 : Fin 9)))).1 2 = 1 := by
  apply generate_spec "easy" (fun _ => List.range' 1 9) (fun _ => ((0 : Fin 9), (0 : Fin 9)))
  intro j n h1 h2
  interval_cases n <;> decide

/-- C9: an unrecognized difficulty string silently falls back to the
"medium" preset: the configuration is (45 holes, 3 hints, 4 max mistakes),
`generate` behaves exactly as for "medium", and the new game starts with 3
hints and 4 allowed mistakes. -/
theorem unknown_difficulty_fallback (s : String) (rand : Shuffles) (draws : Draws)
    (h1 : s ≠ "easy") (h2 : s ≠ "medium") (h3 : s ≠ "hard") (h4 : s ≠ "expert") :
    getConfig s = ⟨45, 3, 4⟩ ∧
    generate s rand draws = generate "medium" rand draws ∧
    (newGame s rand draws).hints_left = 3 ∧
    (newGame s rand draws).max_mistakes = 4 := by
  have hc : getConfig s = ⟨45, 3, 4⟩ := by
    rw [getConfig, DIFFICULTIES, if_neg h1, if_neg h2, if_neg h3, if_neg h4]
    rfl
  have hm : getConfig "medium" = ⟨45, 3, 4⟩ := by decide
  refine ⟨hc, ?_, ?_, ?_⟩
  · rw [show generate s rand draws =
        (dig_holes (solveBoard emptyBoard rand) (getConfig s).holes draws,
          deep_copy_board (solveBoard emptyBoard rand)) from rfl,
      show generate "medium" rand draws =
        (dig_holes (solveBoard emptyBoard rand) (getConfig "medium").holes draws,
          deep_copy_board (solveBoard emptyBoard rand)) from rfl,
      hc, hm]
  · show (getConfig s).hints = 3
    rw [hc]
  · show (getConfig s).max_mistakes = 4
    rw [hc]

/-- Witness for C9 at the difficulty string "nightmare". -/
theorem unknown_difficulty_fallback_witness :
    getConfig "nightmare" = ⟨45, 3, 4⟩ ∧
    generate "nightmare" (fun _ => List.range' 1 9) (fun _ => ((0 : Fin 9), (0 : Fin 9))) =
      generate "medium" (fun _ => List.range' 1 9) (fun _ => ((0 : Fin 9), (0 : Fin 9))) ∧
    (newGame "nightmare" (fun _ => List.range' 1 9)
      (fun _ => ((0 : Fin 9), (0 : Fin 9)))).hints_left = 3 ∧
    (newGame "nightmare" (fun _ => List.range' 1 9)
      (fun _ => ((0 : Fin 9), (0 : Fin 9)))).max_mistakes = 4 :=
  unknown_difficulty_fallback "nightmare" (fun _ => List.range' 1 9)
    (fun _ => ((0 : Fin 9), (0 : Fin 9)))
    (by decide) (by decide) (by decide) (by decide)

end Sudoku
